import Mathlib

/-!
Verification development for the vtermtest core: the keystroke DSL compiler
(keys package), the token interpreter, the assertion retry engine, the screen
snapshot extractor, and the session-controller state transitions.

Go strings handled by the DSL compiler are modelled as lists of bytes
(`List Nat`, each entry a byte value); `len`, indexing and slicing in the Go
source are byte-based, which this representation mirrors exactly.
Rendered screen text (built rune by rune) is modelled as `List Char`.
Unicode-aware library helpers (strings.ToLower, unicode.ToLower,
strings.TrimSpace) are modelled on the byte ranges the parser actually
compares against (ASCII, plus the Latin-1 page for unicode.ToLower on a
single byte); all comparisons in the parser are against pure-ASCII patterns.
-/

/-- Bytes of an ASCII string literal, for readable byte-list constants. -/
def strBytes (s : String) : List Nat :=
  s.data.map Char.toNat

/-- ASCII lowercasing of one byte, as strings.ToLower acts on ASCII input. -/
def asciiLower (b : Nat) : Nat :=
  if 65 ≤ b ∧ b ≤ 90 then b + 32 else b

/-- ASCII uppercasing of one byte, as strings.ToUpper acts on ASCII input. -/
def asciiUpper (b : Nat) : Nat :=
  if 97 ≤ b ∧ b ≤ 122 then b - 32 else b

/-- unicode.ToLower applied to rune(b) for a single byte b: lowers A-Z and
the Latin-1 uppercase range À-Þ (0xC0-0xDE, excluding × 0xD7). -/
def latin1RuneLower (b : Nat) : Nat :=
  if 65 ≤ b ∧ b ≤ 90 then b + 32
  else if 192 ≤ b ∧ b ≤ 222 ∧ b ≠ 215 then b + 32
  else b

/-- strings.ToLower over a byte string (ASCII model). -/
def lowerStr (s : List Nat) : List Nat :=
  s.map asciiLower

/-- strings.ToUpper over a byte string (ASCII model). -/
def upperStr (s : List Nat) : List Nat :=
  s.map asciiUpper

/-- One byte is an ASCII letter. -/
def isLetterByte (b : Nat) : Bool :=
  (65 ≤ b ∧ b ≤ 90) ∨ (97 ≤ b ∧ b ≤ 122)

/-- One byte is an ASCII digit. -/
def isDigitByte (b : Nat) : Bool :=
  48 ≤ b ∧ b ≤ 57

/-- strings.HasPrefix on byte strings. -/
def leadsWith : List Nat → List Nat → Bool
  | [], _ => true
  | _ :: _, [] => false
  | p :: ps, b :: bs => p = b ∧ leadsWith ps bs

/-- Index of the first occurrence of a byte, if any (the closing-delimiter
scan in ParseWithOptions). -/
def idxOfByte (b : Nat) : List Nat → Option Nat
  | [] => none
  | x :: xs => if x = b then some 0 else (idxOfByte b xs).map (fun j => j + 1)

/-- Whitespace bytes trimmed by strings.TrimSpace (ASCII model). -/
def isSpaceByte (b : Nat) : Bool :=
  b = 32 ∨ (9 ≤ b ∧ b ≤ 13)

/-- strings.TrimSpace on byte strings (ASCII model). -/
def trimSpaceBytes (s : List Nat) : List Nat :=
  ((s.dropWhile isSpaceByte).reverse.dropWhile isSpaceByte).reverse

/-- All bytes are ASCII digits. -/
def allDigits (s : List Nat) : Bool :=
  s.all isDigitByte

/-- Decimal value of a digit byte string. -/
def digitsToNat (s : List Nat) : Nat :=
  s.foldl (fun acc b => acc * 10 + (b - 48)) 0

/-- strconv.Atoi: optional sign followed by at least one digit and nothing
else.  (Overflow of a 64-bit int is not modelled; the parser only ever reads
function-key numbers.) -/
def atoi (s : List Nat) : Option Int :=
  match s with
  | [] => none
  | b :: rest =>
    if b = 43 then
      if rest ≠ [] ∧ allDigits rest then some (digitsToNat rest) else none
    else if b = 45 then
      if rest ≠ [] ∧ allDigits rest then some (-(digitsToNat rest : Int)) else none
    else if allDigits s then some (digitsToNat s) else none

namespace keys

/-- Modelled from the spec: the keys package byte tables (keys.go) are not
among the given sources; the spec fixes only that each named key compiles to
one fixed byte sequence.  Representative terminal byte sequences are used;
no claim depends on the particular bytes, only on which sequence is chosen. -/
def Tab : List Nat := [9]

/-- Modelled from the spec: Enter/CR byte sequence. -/
def Enter : List Nat := [13]

/-- Modelled from the spec: Backspace/BS byte sequence. -/
def Backspace : List Nat := [127]

/-- Modelled from the spec: Delete/Del byte sequence. -/
def Delete : List Nat := [27, 91, 51, 126]

/-- Modelled from the spec: Up arrow byte sequence. -/
def Up : List Nat := [27, 91, 65]

/-- Modelled from the spec: Down arrow byte sequence. -/
def Down : List Nat := [27, 91, 66]

/-- Modelled from the spec: Right arrow byte sequence. -/
def Right : List Nat := [27, 91, 67]

/-- Modelled from the spec: Left arrow byte sequence. -/
def Left : List Nat := [27, 91, 68]

/-- Modelled from the spec: Home byte sequence. -/
def Home : List Nat := [27, 91, 72]

/-- Modelled from the spec: End byte sequence. -/
def End : List Nat := [27, 91, 70]

/-- Modelled from the spec: PageUp byte sequence. -/
def PageUp : List Nat := [27, 91, 53, 126]

/-- Modelled from the spec: PageDown byte sequence. -/
def PageDown : List Nat := [27, 91, 54, 126]

/-- Modelled from the spec: keys.Alt is missing from the sources; the spec
fixes it as an escape-prefixed byte pair with the letter's case preserved. -/
def Alt (b : Nat) : List Nat := [27, b]

/-- Modelled from the spec: keys.F is missing from the sources; the spec
fixes that F n is defined exactly for 1..24 (nil otherwise), each yielding
that function key's escape sequence.  A representative injective encoding is
used; no claim depends on the bytes. -/
def F (n : Int) : Option (List Nat) :=
  if 1 ≤ n ∧ n ≤ 24 then some [27, 79, 80 + n.toNat] else none

/-- keys.Text converts a literal text run to its raw bytes; pinned by the
escaping test in emulator_test.go, which compares string(result[0]) with the
literal text itself. -/
def Text (s : List Nat) : List Nat := s

/-- Sentinel bytes for the WaitStable control directive. -/
def wsSentinel : List Nat := strBytes ("__WAITSTABLE__")

/-- Sentinel prefix bytes for the WaitFor control directive. -/
def wfSentinel : List Nat := strBytes ("__WAITFOR__")

/-- Errors produced by parseSpecialKey, each carrying the offending tag
content as the Go error message does. -/
inductive KeyErr where
  | invalidCtrl (name : List Nat)
  | invalidAlt (name : List Nat)
  | invalidFn (name : List Nat)
  | fnRange (name : List Nat)
  | unknown (name : List Nat)
deriving DecidableEq, Repr

/-- parseSpecialKey from the keys package: resolves a bracketed tag's
content to a byte sequence. -/
def parseSpecialKey (name : List Nat) : Except KeyErr (List Nat) :=
  let ln := lowerStr name
  if ln = strBytes ("tab") then .ok Tab
  else if ln = strBytes ("enter") ∨ ln = strBytes ("cr") then .ok Enter
  else if ln = strBytes ("bs") ∨ ln = strBytes ("backspace") then .ok Backspace
  else if ln = strBytes ("del") ∨ ln = strBytes ("delete") then .ok Delete
  else if ln = strBytes ("esc") ∨ ln = strBytes ("escape") then .ok [27]
  else if ln = strBytes ("space") then .ok [32]
  else if ln = strBytes ("up") then .ok Up
  else if ln = strBytes ("down") then .ok Down
  else if ln = strBytes ("left") then .ok Left
  else if ln = strBytes ("right") then .ok Right
  else if ln = strBytes ("home") then .ok Home
  else if ln = strBytes ("end") then .ok End
  else if ln = strBytes ("pageup") then .ok PageUp
  else if ln = strBytes ("pagedown") then .ok PageDown
  else if ln = strBytes ("waitstable") then .ok wsSentinel
  else if leadsWith (strBytes ("waitfor ")) ln then
    .ok (wfSentinel ++ trimSpaceBytes (name.drop 8))
  else if leadsWith (strBytes ("c-")) ln ∧ name.length = 3 then
    let ch := latin1RuneLower (name.getD 2 0)
    if 97 ≤ ch ∧ ch ≤ 122 then .ok [ch - 97 + 1]
    else .error (.invalidCtrl name)
  else if leadsWith (strBytes ("a-")) ln ∧ name.length = 3 then
    let ch := name.getD 2 0
    if isLetterByte ch then .ok (Alt ch)
    else .error (.invalidAlt name)
  else if leadsWith (strBytes ("F")) (upperStr name) then
    match atoi (name.drop 1) with
    | none => .error (.invalidFn name)
    | some n =>
      match F n with
      | none => .error (.fnRange name)
      | some k => .ok k
  else .error (.unknown name)

/-- Tag delimiter configuration (the Go field values are runes truncated to
single bytes before use; the model carries the bytes). -/
structure ParseOptions where
  tagStart : Nat
  tagEnd : Nat
deriving DecidableEq, Repr

/-- DefaultParseOptions: delimiters < and >. -/
def DefaultParseOptions : ParseOptions := ⟨60, 62⟩

/-- Compilation errors of ParseWithOptions: an unclosed tag at its opening
offset, or a parseSpecialKey error wrapped with the tag's opening offset. -/
inductive ParseErr where
  | unclosed (pos : Nat)
  | atPos (pos : Nat) (err : KeyErr)
deriving DecidableEq, Repr

/-- The scanning loop of ParseWithOptions: dsl is the unread remainder,
i the byte offset of its head in the full input, text the buffered literal
run, acc the tokens emitted so far. -/
def parseAux (ts te : Nat) (dsl : List Nat) (i : Nat) (text : List Nat)
    (acc : List (List Nat)) : Except ParseErr (List (List Nat)) :=
  match dsl with
  | [] => .ok (acc ++ (if text = [] then [] else [Text text]))
  | b :: rest =>
    if b = ts then
      if rest.head? = some ts then
        parseAux ts te rest.tail (i + 2) (text ++ [ts]) acc
      else
        let acc2 := acc ++ (if text = [] then [] else [Text text])
        match idxOfByte te rest with
        | none => .error (.unclosed i)
        | some j =>
          match parseSpecialKey (rest.take j) with
          | .error e => .error (.atPos i e)
          | .ok k => parseAux ts te (rest.drop (j + 1)) (i + j + 2) [] (acc2 ++ [k])
    else
      parseAux ts te rest (i + 1) (text ++ [b]) acc
termination_by dsl.length
decreasing_by
  all_goals
    first
    | omega
    | (simp only [List.length_tail, List.length_drop, List.length_cons]; omega)

/-- ParseWithOptions: compiles a DSL byte string into a token sequence. -/
def ParseWithOptions (dsl : List Nat) (opts : ParseOptions) :
    Except ParseErr (List (List Nat)) :=
  parseAux opts.tagStart opts.tagEnd dsl 0 [] []

/-- Parse: compilation with the default delimiters. -/
def Parse (dsl : List Nat) : Except ParseErr (List (List Nat)) :=
  ParseWithOptions dsl DefaultParseOptions

end keys

instance {ε α : Type} [DecidableEq ε] [DecidableEq α] : DecidableEq (Except ε α) :=
  fun a b =>
    match a, b with
    | .ok x, .ok y =>
      if h : x = y then isTrue (by rw [h]) else isFalse (by intro hc; cases hc; exact h rfl)
    | .error x, .error y =>
      if h : x = y then isTrue (by rw [h]) else isFalse (by intro hc; cases hc; exact h rfl)
    | .ok _, .error _ => isFalse (by intro hc; cases hc)
    | .error _, .ok _ => isFalse (by intro hc; cases hc)

example : keys.Parse (strBytes ("hello<Tab>world")) =
    .ok [strBytes ("hello"), keys.Tab, strBytes ("world")] := by
  simp [keys.Parse, keys.ParseWithOptions, keys.parseAux, keys.DefaultParseOptions,
    strBytes, idxOfByte, keys.parseSpecialKey, lowerStr, asciiLower, leadsWith,
    keys.Text, keys.Tab]

example : keys.Parse (strBytes ("hello<<world")) =
    .ok [strBytes ("hello<world")] := by
  simp [keys.Parse, keys.ParseWithOptions, keys.parseAux, keys.DefaultParseOptions,
    strBytes, idxOfByte, keys.Text]

example : keys.Parse (strBytes ("hello<Tab")) =
    .error (.unclosed 5) := by
  simp [keys.Parse, keys.ParseWithOptions, keys.parseAux, keys.DefaultParseOptions,
    strBytes, idxOfByte]

example : keys.parseSpecialKey (strBytes ("C-a")) = .ok [1] := by decide

example : keys.parseSpecialKey (strBytes ("C-1")) =
    .error (.invalidCtrl (strBytes ("C-1"))) := by decide

example : keys.parseSpecialKey (strBytes ("F25")) =
    .error (.fnRange (strBytes ("F25"))) := by decide

example : keys.parseSpecialKey (strBytes ("Fabc")) =
    .error (.invalidFn (strBytes ("Fabc"))) := by decide

example : keys.parseSpecialKey (strBytes ("WaitStable")) =
    .ok keys.wsSentinel := by decide

example : keys.parseSpecialKey (strBytes ("WaitFor hello")) =
    .ok (keys.wfSentinel ++ strBytes ("hello")) := by decide

/-! ## Token interpreter (KeyPressStringWithOptions, emulator.go) -/

/-- What the interpreter loop does with one compiled token: write its bytes
to the pty, or invoke the stability detector (WaitStable / WaitFor). -/
inductive KeyAction where
  | write (k : List Nat)
  | waitStable
  | waitFor (t : List Nat)
deriving DecidableEq, Repr

/-- The per-token dispatch of KeyPressStringWithOptions: an exact match of
the WaitStable sentinel invokes WaitStable, a WaitFor-sentinel prefix
invokes WaitFor on the remainder after the 11 prefix bytes, anything else is
written to the pty via KeyPress. -/
def interpretKey (k : List Nat) : KeyAction :=
  if k = keys.wsSentinel then .waitStable
  else if leadsWith keys.wfSentinel k then .waitFor (k.drop 11)
  else .write k

/-- KeyPressStringWithOptions: compile the DSL, then dispatch each token in
order.  (The pty writes and detector waits themselves are external effects;
the model records the action sequence.) -/
def KeyPressStringWithOptions (dsl : List Nat) (opts : keys.ParseOptions) :
    Except keys.ParseErr (List KeyAction) :=
  (keys.ParseWithOptions dsl opts).map (List.map interpretKey)

/-! ## Assertion retry engine (assert.go) -/

/-- Characters trimmed by strings.TrimSpace on rendered screen text
(ASCII plus the Latin-1 whitespace handled by unicode.IsSpace). -/
def isSpaceChar (c : Char) : Bool :=
  c = ' ' ∨ (9 ≤ c.toNat ∧ c.toNat ≤ 13) ∨ c.toNat = 133 ∨ c.toNat = 160

/-- strings.TrimSpace on rendered screen text. -/
def goTrimSpace (s : List Char) : List Char :=
  ((s.dropWhile isSpaceChar).reverse.dropWhile isSpaceChar).reverse

/-- assertConfig: the retry configuration carried by the Emulator.
maxAttempts and initialDelay are Go int / time.Duration (Int here);
backoffFactor is a float64, modelled as an exact rational. -/
structure assertConfig where
  maxAttempts : Int
  initialDelay : Int
  backoffFactor : ℚ
deriving DecidableEq

/-- getMaxAttempts: positive configured value, else the default 6. -/
def getMaxAttempts (c : assertConfig) : Int :=
  if 0 < c.maxAttempts then c.maxAttempts else 6

/-- getInitialDelay: positive configured value, else the default 20ms
(20000000 ns). -/
def getInitialDelay (c : assertConfig) : Int :=
  if 0 < c.initialDelay then c.initialDelay else 20000000

/-- getBackoffFactor: positive configured value, else the default 2.0. -/
def getBackoffFactor (c : assertConfig) : ℚ :=
  if 0 < c.backoffFactor then c.backoffFactor else 2

/-- delay = time.Duration(float64(delay) * backoffFactor): the float
product truncated to integer nanoseconds（exact-rational model of the
float64 arithmetic; int64 overflow is out of scope）. -/
def nextDelay (d : Nat) (f : ℚ) : Nat :=
  (Int.floor ((d : ℚ) * f)).toNat

/-- The sleep delay used before retry k+1 of assertWithRetry: starts at the
effective initial delay and is multiplied by the effective backoff factor
after every sleep. -/
def delaySeq (c : assertConfig) : Nat → Nat
  | 0 => (getInitialDelay c).toNat
  | k + 1 => nextDelay (delaySeq c k) (getBackoffFactor c)

/-- The check closure built by AssertScreenEqual: the expectation is trimmed
once up front, each captured screen is trimmed before comparison, a mismatch
produces the diagnostic pair (want, got). -/
def assertScreenEqualCheck (want got : List Char) : Option (List Char × List Char) :=
  let w := goTrimSpace want
  let g := goTrimSpace got
  if g = w then none else some (w, g)

/-- The attempt loop of assertWithRetry: run check on attempts k, k+1, ...
with n attempts remaining; none on first success, otherwise the last
attempt's error (the diagnostic passed to t.Fatalf). -/
def retryRun {ε : Type} (check : Nat → Option ε) : Nat → Nat → Option ε
  | _, 0 => none
  | k, 1 => check k
  | k, Nat.succ (Nat.succ n) =>
    match check k with
    | none => none
    | some _ => retryRun check (k + 1) (n + 1)

/-- AssertScreenEqual: the retry engine applied to the screen-equality
check, with the captured screen of attempt k given by screens k. -/
def AssertScreenEqual (cfg : assertConfig) (want : List Char)
    (screens : Nat → List Char) : Option (List Char × List Char) :=
  retryRun (fun k => assertScreenEqualCheck want (screens k)) 0
    (getMaxAttempts cfg).toNat

/-! ## Screen snapshot extractor (screen.go sources) -/

/-- The external engine's readable grid: row and column to the cell's chars
(none models a GetCell error or nil cell, an empty list a cell with no
chars). -/
abbrev ScreenFn := Nat → Nat → Option (List Char)

/-- The column walk of getLine: read the cell at col, append one character
(blank for missing/empty/zero cells), advance by the character's display
width with width 0 treated as 1.  rw models runewidth.RuneWidth. -/
def getLineAux (screen : ScreenFn) (rw : Char → Nat) (cols row : Nat)
    (col : Nat) : List Char :=
  if _hcol : col < cols then
    match screen row col with
    | none => ' ' :: getLineAux screen rw cols row (col + 1)
    | some cs =>
      match cs with
      | [] => ' ' :: getLineAux screen rw cols row (col + 1)
      | c :: _ =>
        if c.toNat = 0 then ' ' :: getLineAux screen rw cols row (col + 1)
        else c :: getLineAux screen rw cols row (col + (if rw c = 0 then 1 else rw c))
  else []
termination_by cols - col
decreasing_by
  all_goals first
  | omega
  | (rename_i hw; split <;> omega)

/-- strings.TrimRight(line, " "): trailing blanks only. -/
def trimRightSpaces (line : List Char) : List Char :=
  (line.reverse.dropWhile (fun c => c = ' ')).reverse

/-! ## Session controller state (emulator.go) -/

/-- The Emulator's modelled state: configured geometry, lifecycle handles
(cmd, cmd.Process, ptmx, vt, screen as presence flags plus the pty's and the
engine's own geometry), the configured command path, and whether the reader
goroutine was spawned (its one-shot done channel can only ever close if it
was). -/
structure EmState where
  rows : Nat
  cols : Nat
  cmdPath : List Char
  hasCmd : Bool
  hasProc : Bool
  hasPtmx : Bool
  ptyRows : Nat
  ptyCols : Nat
  hasVt : Bool
  vtRows : Nat
  vtCols : Nat
  screen : Option ScreenFn
  readerSpawned : Bool

/-- New(rows, cols): a fresh Emulator with only the geometry set. -/
def New (rows cols : Nat) : EmState :=
  { rows := rows, cols := cols, cmdPath := [], hasCmd := false,
    hasProc := false, hasPtmx := false, ptyRows := 0, ptyCols := 0,
    hasVt := false, vtRows := 0, vtCols := 0, screen := none,
    readerSpawned := false }

/-- Command(path, ...): records the command to execute. -/
def Command (s : EmState) (path : List Char) : EmState :=
  { s with cmdPath := path }

/-- Start errors: no command configured, or pty.StartWithSize failed. -/
inductive StartErr where
  | noCommand
  | spawnFailed
deriving DecidableEq, Repr

/-- Start: fails with no state change if no command is set; constructs cmd,
then either fails at pty spawn (cmd set, no process, no pty, no engine, no
reader) or attaches the pty at the configured geometry, creates the engine
at the same geometry with its readable screen, and spawns the reader.
Whether the spawn succeeds, and the engine's grid contents, are external
outcomes passed in. -/
def Start (s : EmState) (spawnFails : Bool) (engine : ScreenFn) :
    EmState × Option StartErr :=
  if s.cmdPath = [] then (s, some .noCommand)
  else
    let s1 := { s with hasCmd := true }
    if spawnFails then (s1, some .spawnFailed)
    else
      ({ s1 with hasProc := true, hasPtmx := true, ptyRows := s.rows,
                 ptyCols := s.cols, hasVt := true, vtRows := s.rows,
                 vtCols := s.cols, screen := some engine,
                 readerSpawned := true }, none)

/-- External outcomes observed during Close: whether the pty close errors,
the kill result (none: no error; some true: "process already finished",
which Close ignores; some false: another kill error), the wait result (none:
clean exit; some true: "signal: killed", ignored; some false: another
error), whether the reader's done signal arrives within the 2s bound (only
possible if the reader was spawned), and whether the engine teardown
errors. -/
structure CloseEnv where
  ptyCloseFails : Bool
  killErr : Option Bool
  waitErr : Option Bool
  readerDoneInTime : Bool
  vtCloseFails : Bool

/-- The error categories Close can aggregate. -/
inductive CloseErr where
  | ptyClose
  | kill
  | wait
  | readerTimeout
  | vtClose
deriving DecidableEq, Repr

/-- The aggregated error list of Close: every phase runs; a phase only
contributes when its handle exists and its outcome is a non-ignored error.
The reader wait contributes a timeout error unless the done signal arrives,
which requires the reader to have been spawned. -/
def closeErrs (s : EmState) (env : CloseEnv) : List CloseErr :=
  (if s.hasPtmx ∧ env.ptyCloseFails then [.ptyClose] else [])
    ++ (if s.hasCmd ∧ s.hasProc then
          (match env.killErr with
           | some false => [CloseErr.kill]
           | _ => [])
            ++ (match env.waitErr with
                | some false => [CloseErr.wait]
                | _ => [])
        else [])
    ++ (if s.readerSpawned ∧ env.readerDoneInTime then [] else [.readerTimeout])
    ++ (if s.hasVt ∧ env.vtCloseFails then [.vtClose] else [])

/-- Close: returns nil when no phase errored, otherwise the aggregated
error list. -/
def Close (s : EmState) (env : CloseEnv) : Option (List CloseErr) :=
  let es := closeErrs s env
  if es = [] then none else some es

/-- Resize errors: not started, or pty.Setsize failed. -/
inductive ResizeErr where
  | notStarted
  | ptyResizeFailed
deriving DecidableEq, Repr

/-- Resize: rejected if the pty was never attached; otherwise the stored
geometry is updated first, then the pty is resized (an external outcome —
on failure Resize returns with only the stored geometry changed), then the
engine is resized when present. -/
def Resize (s : EmState) (rows cols : Nat) (ptySetsizeFails : Bool) :
    EmState × Option ResizeErr :=
  if ¬ s.hasPtmx then (s, some .notStarted)
  else
    let s1 := { s with rows := rows, cols := cols }
    if ptySetsizeFails then (s1, some .ptyResizeFailed)
    else
      let s2 := { s1 with ptyRows := rows, ptyCols := cols }
      let s3 := if s2.hasVt then { s2 with vtRows := rows, vtCols := cols } else s2
      (s3, none)

/-- GetScreenText: empty text and nil error when no engine screen exists;
otherwise each row 0..rows-1 extracted and right-trimmed of blanks, joined
with newlines, and a nil error. -/
def GetScreenText (s : EmState) (rw : Char → Nat) : List Char × Option (List Char) :=
  match s.screen with
  | none => ([], none)
  | some sf =>
    (List.intercalate ['\n']
      ((List.range s.rows).map
        (fun r => trimRightSpaces (getLineAux sf rw s.cols r 0))), none)

/-- GetLine: empty text and nil error when no engine screen exists or the
row index is at or beyond the configured row count; otherwise the extracted,
right-trimmed row and a nil error. -/
def GetLine (s : EmState) (rw : Char → Nat) (row : Nat) : List Char × Option (List Char) :=
  match s.screen with
  | none => ([], none)
  | some sf =>
    if s.rows ≤ row then ([], none)
    else (trimRightSpaces (getLineAux sf rw s.cols row 0), none)

/-! ## Helper lemmas -/

/-- Characters of an ASCII string literal, for readable screen-text
constants. -/
def strChars (s : String) : List Char :=
  s.data

lemma getLineAux_length_le (screen : ScreenFn) (rw : Char → Nat) (cols row : Nat) :
    ∀ col, (getLineAux screen rw cols row col).length ≤ cols - col := by
  have key : ∀ n col, cols - col ≤ n →
      (getLineAux screen rw cols row col).length ≤ cols - col := by
    intro n
    induction n with
    | zero =>
      intro col hn
      rw [getLineAux]
      split
      · rename_i hlt
        exact absurd hlt (by omega)
      · simp
    | succ m ih =>
      intro col hn
      rw [getLineAux]
      split
      · rename_i hlt
        have hone : (getLineAux screen rw cols row (col + 1)).length + 1 ≤ cols - col := by
          have := ih (col + 1) (by omega)
          omega
        have hstep : ∀ (c : Char),
            (getLineAux screen rw cols row
              (col + (if rw c = 0 then 1 else rw c))).length + 1 ≤ cols - col := by
          intro c
          have hadv : 1 ≤ (if rw c = 0 then 1 else rw c) := by split <;> omega
          have := ih (col + (if rw c = 0 then 1 else rw c)) (by omega)
          omega
        split
        · simpa using hone
        · split
          · simpa using hone
          · split
            · simpa using hone
            · simpa using hstep _
      · simp
  intro col
  exact key (cols - col) col (Nat.le_refl _)

lemma getMaxAttempts_toNat_pos (c : assertConfig) : 1 ≤ (getMaxAttempts c).toNat := by
  unfold getMaxAttempts
  split <;> omega

lemma retryRun_eq_none_iff {ε : Type} (check : Nat → Option ε) :
    ∀ n k, 1 ≤ n → (retryRun check k n = none ↔ ∃ j, j < n ∧ check (k + j) = none) := by
  intro n
  induction n with
  | zero => intro k h; omega
  | succ m ih =>
    intro k _
    cases m with
    | zero =>
      constructor
      · intro h
        exact ⟨0, Nat.zero_lt_one, by simpa [retryRun] using h⟩
      · rintro ⟨j, hj, hc⟩
        have hj0 : j = 0 := by omega
        subst hj0
        simpa [retryRun] using hc
    | succ p =>
      cases hc : check k with
      | none =>
        have hr : retryRun check k (p + 1 + 1) = none := by
          simp [retryRun, hc]
        rw [hr]
        simp only [true_iff]
        exact ⟨0, by omega, by simpa using hc⟩
      | some e =>
        have hr : retryRun check k (p + 1 + 1) = retryRun check (k + 1) (p + 1) := by
          simp [retryRun, hc]
        rw [hr, ih (k + 1) (by omega)]
        constructor
        · rintro ⟨j, hj, hcc⟩
          refine ⟨j + 1, by omega, ?_⟩
          rw [show k + (j + 1) = k + 1 + j by omega]
          exact hcc
        · rintro ⟨j, hj, hcc⟩
          cases j with
          | zero =>
            rw [Nat.add_zero, hc] at hcc
            cases hcc
          | succ i =>
            refine ⟨i, by omega, ?_⟩
            rw [show k + 1 + i = k + (i + 1) by omega]
            exact hcc

lemma assertScreenEqualCheck_eq_none_iff (want got : List Char) :
    assertScreenEqualCheck want got = none ↔ goTrimSpace got = goTrimSpace want := by
  by_cases h : goTrimSpace got = goTrimSpace want <;>
    simp [assertScreenEqualCheck, h]

/-! ## C1 -/

/-- C1 counterexample: with the default retry configuration, expectation
"a" and every captured screen " a", AssertScreenEqual succeeds even though
the untrimmed captured screen differs from the trimmed expectation — the
captured screen is trimmed too, so the claimed equivalence is false here. -/
theorem c1_counterexample :
    AssertScreenEqual ⟨0, 0, 0⟩ (strChars ("a")) (fun _ => strChars (" a")) = none ∧
    strChars (" a") ≠ goTrimSpace (strChars ("a")) := by
  constructor
  · decide
  · decide

/-- C1 (amended): the whole-screen assertion trims both the expectation and
each captured screen; it succeeds exactly when some attempt within the
retry budget captures a screen whose trimmed text equals the trimmed
expectation. -/
theorem c1_screen_assertion_trims_both (cfg : assertConfig) (want : List Char)
    (screens : Nat → List Char) :
    AssertScreenEqual cfg want screens = none ↔
      ∃ j, j < (getMaxAttempts cfg).toNat ∧
        goTrimSpace (screens j) = goTrimSpace want := by
  unfold AssertScreenEqual
  rw [retryRun_eq_none_iff _ _ 0 (getMaxAttempts_toNat_pos cfg)]
  constructor
  · rintro ⟨j, hj, hc⟩
    rw [Nat.zero_add] at hc
    exact ⟨j, hj, (assertScreenEqualCheck_eq_none_iff _ _).1 hc⟩
  · rintro ⟨j, hj, hc⟩
    exact ⟨j, hj, by
      rw [Nat.zero_add]
      exact (assertScreenEqualCheck_eq_none_iff _ _).2 hc⟩

/-! ## C9 -/

/-- C9: the row-extraction walk appends one character per iteration and
advances the column cursor by that character's display width (a computed
width of 0 treated as 1), so it performs at most cols iterations and the
extracted row (before trailing-blank trimming) never exceeds the column
count in characters — for every engine grid and every width function. -/
theorem c9_row_extraction_bounded (screen : ScreenFn) (rw : Char → Nat)
    (cols row : Nat) :
    (getLineAux screen rw cols row 0).length ≤ cols := by
  simpa using getLineAux_length_le screen rw cols row 0

/-! ## C10 -/

/-- C10: on a session without an engine instance, GetScreenText and GetLine
return empty text and a nil error; GetLine does the same for every row index
at or beyond the configured row count. -/
theorem c10_lenient_reads (s : EmState) (rw : Char → Nat) (row : Nat) :
    (s.screen = none →
      GetScreenText s rw = ([], none) ∧ GetLine s rw row = ([], none)) ∧
    (s.rows ≤ row → GetLine s rw row = ([], none)) := by
  constructor
  · intro h
    rw [GetScreenText, GetLine, h]
    exact ⟨rfl, rfl⟩
  · intro h
    rw [GetLine]
    cases hs : s.screen with
    | none => rfl
    | some sf => simp [h]

/-- C10 witness: a freshly configured, never started 3×4 session yields
empty text and nil errors, also for an out-of-range row. -/
theorem c10_witness :
    GetScreenText (New 3 4) (fun _ => 1) = ([], none) ∧
    GetLine (New 3 4) (fun _ => 1) 7 = ([], none) :=
  ⟨((c10_lenient_reads (New 3 4) (fun _ => 1) 7).1 rfl).1,
   ((c10_lenient_reads (New 3 4) (fun _ => 1) 7).1 rfl).2⟩

/-! ## C3 -/

/-- C3 counterexample: the configuration (6 attempts, 20ms, factor 1.0) is
accepted by the retry surface (all fields positive, so none is replaced by
a default), yet the sleep delay does not increase from the first sleep to
the second. -/
theorem c3_counterexample :
    (0 : ℚ) < (⟨6, 20000000, 1⟩ : assertConfig).backoffFactor ∧
    getBackoffFactor ⟨6, 20000000, 1⟩ = 1 ∧
    getMaxAttempts ⟨6, 20000000, 1⟩ = 6 ∧
    getInitialDelay ⟨6, 20000000, 1⟩ = 20000000 ∧
    ¬ (delaySeq ⟨6, 20000000, 1⟩ 0 < delaySeq ⟨6, 20000000, 1⟩ 1) := by
  refine ⟨by norm_num, by norm_num [getBackoffFactor], by norm_num [getMaxAttempts],
    by norm_num [getInitialDelay], ?_⟩
  have h0 : delaySeq ⟨6, 20000000, 1⟩ 0 = 20000000 := by
    simp [delaySeq, getInitialDelay]
  have h1 : delaySeq ⟨6, 20000000, 1⟩ 1 = 20000000 := by
    have : delaySeq (⟨6, 20000000, 1⟩ : assertConfig) 1 =
        nextDelay 20000000 (getBackoffFactor ⟨6, 20000000, 1⟩) := by
      rw [show delaySeq (⟨6, 20000000, 1⟩ : assertConfig) 1 =
        nextDelay (delaySeq ⟨6, 20000000, 1⟩ 0) (getBackoffFactor ⟨6, 20000000, 1⟩) from rfl, h0]
    rw [this]
    norm_num [nextDelay, getBackoffFactor]
    rfl
  omega

lemma one_le_delaySeq_zero (c : assertConfig) : 1 ≤ delaySeq c 0 := by
  simp only [delaySeq, getInitialDelay]
  split <;> omega

lemma lt_nextDelay_of_two_le (d : Nat) (f : ℚ) (hd : 1 ≤ d) (hf : 2 ≤ f) :
    d < nextDelay d f ∧ 1 ≤ nextDelay d f := by
  have h2d : ((2 * d : Nat) : ℤ) ≤ Int.floor ((d : ℚ) * f) := by
    rw [Int.le_floor]
    push_cast
    calc (2 * d : ℚ) = (d : ℚ) * 2 := by ring
    _ ≤ (d : ℚ) * f := by
        apply mul_le_mul_of_nonneg_left hf
        positivity
  have hge : 2 * d ≤ nextDelay d f := by
    unfold nextDelay
    omega
  omega

/-- C3 (amended): whenever the effective backoff factor is at least 2 — in
particular under the default factor 2.0 — the sleep delay of the retry
engine strictly increases from each attempt to the next; a configured
factor of exactly 1.0 is accepted by the surface but keeps the delay
constant. -/
theorem c3_delay_strictly_increasing (cfg : assertConfig)
    (hf : 2 ≤ getBackoffFactor cfg) (k : Nat) :
    delaySeq cfg k < delaySeq cfg (k + 1) := by
  have hpos : ∀ j, 1 ≤ delaySeq cfg j := by
    intro j
    induction j with
    | zero => exact one_le_delaySeq_zero cfg
    | succ i ih =>
      exact (lt_nextDelay_of_two_le _ _ ih hf).2
  exact (lt_nextDelay_of_two_le _ _ (hpos k) hf).1

/-- C3 witness: with the all-default configuration the first sleep delay is
strictly below the second. -/
theorem c3_witness :
    2 ≤ getBackoffFactor ⟨0, 0, 0⟩ ∧
    delaySeq ⟨0, 0, 0⟩ 0 < delaySeq ⟨0, 0, 0⟩ 1 :=
  ⟨by norm_num [getBackoffFactor],
   c3_delay_strictly_increasing ⟨0, 0, 0⟩ (by norm_num [getBackoffFactor]) 0⟩

/-! ## C4 -/

/-- A concrete running 24×80 session with all three geometries in step. -/
def runningEm : EmState :=
  { rows := 24, cols := 80, cmdPath := strChars ("sh"), hasCmd := true,
    hasProc := true, hasPtmx := true, ptyRows := 24, ptyCols := 80,
    hasVt := true, vtRows := 24, vtCols := 80,
    screen := some (fun _ _ => none), readerSpawned := true }

/-- C4 counterexample: when the pty resize fails, Resize returns an error
but has already updated the stored geometry, leaving it out of step with
the untouched pty and engine geometries — a state reachable through Resize
where the geometries are observably inconsistent. -/
theorem c4_counterexample :
    (Resize runningEm 10 30 true).2 = some .ptyResizeFailed ∧
    (Resize runningEm 10 30 true).1.rows = 10 ∧
    (Resize runningEm 10 30 true).1.cols = 30 ∧
    (Resize runningEm 10 30 true).1.ptyRows = 24 ∧
    (Resize runningEm 10 30 true).1.ptyCols = 80 ∧
    (Resize runningEm 10 30 true).1.vtRows = 24 ∧
    (Resize runningEm 10 30 true).1.vtCols = 80 ∧
    (10 : Nat) ≠ 24 :=
  ⟨rfl, rfl, rfl, rfl, rfl, rfl, rfl, by decide⟩

/-- C4 (amended): a Resize on a never-started session fails and changes
nothing; a successful Resize updates the stored, pty and engine geometries
together to the new values; a Resize whose pty resize fails returns an
error with the stored geometry already updated while the pty and engine
geometries keep their old values. -/
theorem c4_resize_updates (s : EmState) (rows cols : Nat) :
    (s.hasPtmx = false → ∀ pf, Resize s rows cols pf = (s, some .notStarted)) ∧
    (s.hasPtmx = true → s.hasVt = true →
      (Resize s rows cols false).2 = none ∧
      (Resize s rows cols false).1.rows = rows ∧
      (Resize s rows cols false).1.cols = cols ∧
      (Resize s rows cols false).1.ptyRows = rows ∧
      (Resize s rows cols false).1.ptyCols = cols ∧
      (Resize s rows cols false).1.vtRows = rows ∧
      (Resize s rows cols false).1.vtCols = cols) ∧
    (s.hasPtmx = true →
      (Resize s rows cols true).2 = some .ptyResizeFailed ∧
      (Resize s rows cols true).1.rows = rows ∧
      (Resize s rows cols true).1.cols = cols ∧
      (Resize s rows cols true).1.ptyRows = s.ptyRows ∧
      (Resize s rows cols true).1.ptyCols = s.ptyCols ∧
      (Resize s rows cols true).1.vtRows = s.vtRows ∧
      (Resize s rows cols true).1.vtCols = s.vtCols) := by
  refine ⟨?_, ?_, ?_⟩
  · intro h pf
    simp [Resize, h]
  · intro hp hv
    simp [Resize, hp, hv]
  · intro hp
    simp [Resize, hp]

/-- C4 witness: on the concrete running session, a successful Resize to
10×30 leaves all three geometries at the new values. -/
theorem c4_witness :
    (Resize runningEm 10 30 false).2 = none ∧
    (Resize runningEm 10 30 false).1.ptyRows = 10 ∧
    (Resize runningEm 10 30 false).1.vtCols = 30 := by
  have h := (c4_resize_updates runningEm 10 30).2.1 rfl rfl
  exact ⟨h.1, h.2.2.2.1, h.2.2.2.2.2.2⟩

/-! ## C2 -/

/-- A Close environment in which every external outcome is benign. -/
def noFailEnv : CloseEnv :=
  { ptyCloseFails := false, killErr := none, waitErr := none,
    readerDoneInTime := true, vtCloseFails := false }

/-- C2 counterexample: Start on a session with no command fails, and the
subsequent Close — even with every external cleanup outcome benign —
returns a non-nil error: the reader was never spawned, so its one-shot done
signal can never fire and the bounded 2-second wait ends in the aggregated
reader-join timeout error. -/
theorem c2_counterexample :
    (Start (New 24 80) false (fun _ _ => none)).2 = some .noCommand ∧
    Close (Start (New 24 80) false (fun _ _ => none)).1 noFailEnv =
      some [CloseErr.readerTimeout] ∧
    some [CloseErr.readerTimeout] ≠ (none : Option (List CloseErr)) :=
  ⟨rfl, rfl, by decide⟩

/-- C2 (amended): Close after any failed Start of a freshly configured
session completes — every phase is a no-op and the wait on the reader's
completion signal is bounded — but it returns a CleanupError consisting of
exactly the reader-join timeout, for every external cleanup outcome. -/
theorem c2_close_after_failed_start (rows cols : Nat) (path : List Char)
    (spawnFails : Bool) (engine : ScreenFn) (env : CloseEnv)
    (hfail : (Start (Command (New rows cols) path) spawnFails engine).2.isSome = true) :
    Close (Start (Command (New rows cols) path) spawnFails engine).1 env =
      some [CloseErr.readerTimeout] := by
  by_cases hp : path = []
  · subst hp
    simp [Start, Command, New, Close, closeErrs]
  · cases spawnFails with
    | false =>
      exfalso
      simp [Start, Command, New, hp] at hfail
    | true =>
      simp [Start, Command, New, hp, Close, closeErrs]

/-- C2 witness: the concrete no-command session of the counterexample,
closed under the benign environment, via the general theorem. -/
theorem c2_witness :
    Close (Start (Command (New 24 80) []) false (fun _ _ => none)).1 noFailEnv =
      some [CloseErr.readerTimeout] :=
  c2_close_after_failed_start 24 80 [] false (fun _ _ => none) noFailEnv rfl

/-! ## Byte values of the parser's pattern constants -/

@[simp] lemma sb_tab : strBytes ("tab") = [116, 97, 98] := by decide

@[simp] lemma sb_enter : strBytes ("enter") = [101, 110, 116, 101, 114] := by decide

@[simp] lemma sb_cr : strBytes ("cr") = [99, 114] := by decide

@[simp] lemma sb_bs : strBytes ("bs") = [98, 115] := by decide

@[simp] lemma sb_backspace :
    strBytes ("backspace") = [98, 97, 99, 107, 115, 112, 97, 99, 101] := by decide

@[simp] lemma sb_del : strBytes ("del") = [100, 101, 108] := by decide

@[simp] lemma sb_delete : strBytes ("delete") = [100, 101, 108, 101, 116, 101] := by decide

@[simp] lemma sb_esc : strBytes ("esc") = [101, 115, 99] := by decide

@[simp] lemma sb_escape : strBytes ("escape") = [101, 115, 99, 97, 112, 101] := by decide

@[simp] lemma sb_space : strBytes ("space") = [115, 112, 97, 99, 101] := by decide

@[simp] lemma sb_up : strBytes ("up") = [117, 112] := by decide

@[simp] lemma sb_down : strBytes ("down") = [100, 111, 119, 110] := by decide

@[simp] lemma sb_left : strBytes ("left") = [108, 101, 102, 116] := by decide

@[simp] lemma sb_right : strBytes ("right") = [114, 105, 103, 104, 116] := by decide

@[simp] lemma sb_home : strBytes ("home") = [104, 111, 109, 101] := by decide

@[simp] lemma sb_end : strBytes ("end") = [101, 110, 100] := by decide

@[simp] lemma sb_pageup : strBytes ("pageup") = [112, 97, 103, 101, 117, 112] := by decide

@[simp] lemma sb_pagedown :
    strBytes ("pagedown") = [112, 97, 103, 101, 100, 111, 119, 110] := by decide

@[simp] lemma sb_waitstable :
    strBytes ("waitstable") = [119, 97, 105, 116, 115, 116, 97, 98, 108, 101] := by decide

@[simp] lemma sb_waitfor_sp :
    strBytes ("waitfor ") = [119, 97, 105, 116, 102, 111, 114, 32] := by decide

@[simp] lemma sb_cdash : strBytes ("c-") = [99, 45] := by decide

@[simp] lemma sb_adash : strBytes ("a-") = [97, 45] := by decide

@[simp] lemma sb_fupper : strBytes ("F") = [70] := by decide

/-! ## C7 -/

lemma latin1_lower_of_letter (b : Nat) (hb : isLetterByte b = true) :
    latin1RuneLower b = asciiLower b ∧ 97 ≤ asciiLower b ∧ asciiLower b ≤ 122 := by
  simp only [isLetterByte, decide_eq_true_eq, Bool.or_eq_true] at hb
  unfold latin1RuneLower asciiLower
  split_ifs <;> omega

lemma latin1_lower_not_letter (b : Nat) (hb : isLetterByte b = false) :
    ¬ (97 ≤ latin1RuneLower b ∧ latin1RuneLower b ≤ 122) := by
  simp only [isLetterByte, decide_eq_false_iff_not, not_or] at hb
  unfold latin1RuneLower
  split_ifs <;> omega

/-- C7: a C-x tag with an ASCII letter x, in either casing of the C and of
the letter, compiles to the single byte holding the letter's 1-based
alphabet position (a value in 1..26); a C-c tag whose trailing character is
any single non-letter byte is a ParseError. -/
theorem c7_ctrl_tag_bytes (c b : Nat) (hc : c = 67 ∨ c = 99) :
    (isLetterByte b = true →
      keys.parseSpecialKey [c, 45, b] = .ok [asciiLower b - 97 + 1] ∧
      1 ≤ asciiLower b - 97 + 1 ∧ asciiLower b - 97 + 1 ≤ 26) ∧
    (isLetterByte b = false →
      keys.parseSpecialKey [c, 45, b] = .error (.invalidCtrl [c, 45, b])) := by
  have hc1 : asciiLower c = 99 := by rcases hc with h | h <;> subst h <;> decide
  have hcu : asciiUpper c = 67 := by rcases hc with h | h <;> subst h <;> decide
  have ha45 : asciiLower 45 = 45 := by decide
  constructor
  · intro hb
    obtain ⟨heq, h97, h122⟩ := latin1_lower_of_letter b hb
    refine ⟨?_, by omega, by omega⟩
    simp [keys.parseSpecialKey, lowerStr, leadsWith, List.getD, hc1, hcu, ha45,
      heq, h97, h122]
  · intro hb
    have hne := latin1_lower_not_letter b hb
    simp [keys.parseSpecialKey, lowerStr, leadsWith, List.getD, hc1, hcu, ha45, hne]

/-- C7 witness: C-a compiles to byte 1; C-1 is a ParseError. -/
theorem c7_witness :
    keys.parseSpecialKey (strBytes ("C-a")) = .ok [1] ∧
    keys.parseSpecialKey (strBytes ("C-1")) =
      .error (.invalidCtrl (strBytes ("C-1"))) := by
  constructor
  · have h := ((c7_ctrl_tag_bytes 67 97 (Or.inl rfl)).1 (by decide)).1
    have e1 : strBytes ("C-a") = [67, 45, 97] := by decide
    rw [e1]
    simpa [asciiLower] using h
  · have h := (c7_ctrl_tag_bytes 67 49 (Or.inl rfl)).2 (by decide)
    have e1 : strBytes ("C-1") = [67, 45, 49] := by decide
    rw [e1]
    exact h

/-! ## C8 -/

lemma idxOfByte_eq_none_of_not_mem (b : Nat) (l : List Nat) (h : b ∉ l) :
    idxOfByte b l = none := by
  induction l with
  | nil => rfl
  | cons x xs ih =>
    have hxb : ¬ (x = b) := by
      intro hx
      exact h (hx ▸ List.mem_cons_self x xs)
    rw [idxOfByte, if_neg hxb, ih (fun hm => h (List.mem_cons_of_mem x hm))]
    rfl

lemma parseAux_text_scan (ts te : Nat) (pre : List Nat) (hpre : ts ∉ pre) :
    ∀ (l : List Nat) (i : Nat) (text : List Nat) (acc : List (List Nat)),
      keys.parseAux ts te (pre ++ l) i text acc =
        keys.parseAux ts te l (i + pre.length) (text ++ pre) acc := by
  induction pre with
  | nil =>
    intro l i text acc
    simp
  | cons b bs ih =>
    intro l i text acc
    have hb : ¬ (b = ts) := by
      intro h
      exact hpre (h ▸ List.mem_cons_self b bs)
    have hbs : ts ∉ bs := fun hm => hpre (List.mem_cons_of_mem b hm)
    rw [List.cons_append, keys.parseAux]
    rw [if_neg hb]
    rw [ih hbs l (i + 1) (text ++ [b]) acc]
    have e1 : i + 1 + bs.length = i + (b :: bs).length := by
      simp
      omega
    have e2 : (text ++ [b]) ++ bs = text ++ (b :: bs) := by simp
    rw [e1, e2]

/-- The inputs the ParseWithOptions scanner consumes without erroring and
without leaving a tag open: any interleaving of plain text bytes, doubled
opening-delimiter escapes, and complete tags whose content ends at the
first closing delimiter and compiles successfully. -/
inductive ScanOk (ts te : Nat) : List Nat → Prop where
  | nil : ScanOk ts te []
  | text {b : Nat} {rest : List Nat} :
      b ≠ ts → ScanOk ts te rest → ScanOk ts te (b :: rest)
  | escape {rest : List Nat} :
      ScanOk ts te rest → ScanOk ts te (ts :: ts :: rest)
  | tag {name rest k : List Nat} :
      (name ++ [te]).head? ≠ some ts → te ∉ name →
      keys.parseSpecialKey name = .ok k → ScanOk ts te rest →
      ScanOk ts te (ts :: (name ++ te :: rest))

lemma scanOk_of_not_mem (ts te : Nat) : ∀ (pre : List Nat),
    ts ∉ pre → ScanOk ts te pre := by
  intro pre
  induction pre with
  | nil =>
    intro _
    exact ScanOk.nil
  | cons b bs ih =>
    intro h
    have hb : b ≠ ts := by
      intro hb
      exact h (hb ▸ List.mem_cons_self b bs)
    exact ScanOk.text hb (ih (fun hm => h (List.mem_cons_of_mem b hm)))

lemma idxOfByte_append_cons (te : Nat) (name l2 : List Nat) (h : te ∉ name) :
    idxOfByte te (name ++ te :: l2) = some name.length := by
  induction name with
  | nil => simp [idxOfByte]
  | cons x xs ih =>
    have hx : ¬ (x = te) := by
      intro hx
      exact h (hx ▸ List.mem_cons_self x xs)
    rw [List.cons_append, idxOfByte, if_neg hx,
      ih (fun hm => h (List.mem_cons_of_mem x hm))]
    rfl

lemma parseAux_unclosed_head (ts te : Nat) (suffix : List Nat)
    (hsuf : te ∉ suffix) (hnd : suffix.head? ≠ some ts) (j : Nat)
    (text : List Nat) (acc : List (List Nat)) :
    keys.parseAux ts te (ts :: suffix) j text acc = .error (.unclosed j) := by
  rw [keys.parseAux]
  simp [hnd, idxOfByte_eq_none_of_not_mem te suffix hsuf]

lemma parseAux_scan (ts te : Nat) {pre : List Nat} (hpre : ScanOk ts te pre) :
    ∀ (l : List Nat) (i : Nat) (text : List Nat) (acc : List (List Nat)),
      ∃ text2 acc2,
        keys.parseAux ts te (pre ++ l) i text acc =
          keys.parseAux ts te l (i + pre.length) text2 acc2 := by
  induction hpre with
  | nil =>
    intro l i text acc
    exact ⟨text, acc, by simp⟩
  | @text b rest hb _ ih =>
    intro l i text acc
    obtain ⟨t2, a2, he⟩ := ih l (i + 1) (text ++ [b]) acc
    refine ⟨t2, a2, ?_⟩
    have e1 : i + 1 + rest.length = i + (b :: rest).length := by
      simp only [List.length_cons]
      omega
    rw [List.cons_append, keys.parseAux, if_neg hb, he, e1]
  | @escape rest _ ih =>
    intro l i text acc
    obtain ⟨t2, a2, he⟩ := ih l (i + 2) (text ++ [ts]) acc
    refine ⟨t2, a2, ?_⟩
    rw [List.cons_append, List.cons_append, keys.parseAux, if_pos rfl]
    simp only [List.head?_cons, List.tail_cons]
    rw [if_pos trivial, he]
    have e1 : i + 2 + rest.length = i + (ts :: ts :: rest).length := by
      simp only [List.length_cons]
      omega
    rw [e1]
  | @tag name rest k hhead hte hkey _ ih =>
    intro l i text acc
    obtain ⟨t2, a2, he⟩ := ih l (i + name.length + 2)
      [] ((acc ++ (if text = [] then [] else [keys.Text text])) ++ [k])
    refine ⟨t2, a2, ?_⟩
    have hassoc : (ts :: (name ++ te :: rest)) ++ l = ts :: (name ++ te :: (rest ++ l)) := by
      simp
    rw [hassoc, keys.parseAux, if_pos rfl]
    have hhd : ¬ ((name ++ te :: (rest ++ l)).head? = some ts) := by
      intro hc
      apply hhead
      cases name with
      | nil => simpa using hc
      | cons h t => simpa using hc
    rw [if_neg hhd]
    have hidx : idxOfByte te (name ++ te :: (rest ++ l)) = some name.length :=
      idxOfByte_append_cons te name (rest ++ l) hte
    have htake : (name ++ te :: (rest ++ l)).take name.length = name :=
      List.take_left name (te :: (rest ++ l))
    have hdrop2 : (name ++ te :: (rest ++ l)).drop (name.length + 1) = rest ++ l := by
      have h := List.drop_left (name ++ [te]) (rest ++ l)
      simp only [List.append_assoc, List.singleton_append, List.length_append,
        List.length_singleton] at h
      exact h
    simp only [hidx, htake, hkey, hdrop2]
    rw [he]
    have e1 : i + name.length + 2 + rest.length =
        i + (ts :: (name ++ te :: rest)).length := by
      simp only [List.length_cons, List.length_append]
      omega
    rw [e1]

/-- C8: for every delimiter pair and every input that decomposes as a
scannable prefix — any interleaving of plain text, doubled-delimiter
escapes and complete valid tags — followed by an opening delimiter that is
not doubled and has no closing delimiter anywhere before the end of the
input, compilation fails with a ParseError positioned at that opening
delimiter's byte offset. -/
theorem c8_unclosed_tag (ts te : Nat) (pre suffix : List Nat)
    (hpre : ScanOk ts te pre) (hsuf : te ∉ suffix)
    (hnd : suffix.head? ≠ some ts) :
    keys.ParseWithOptions (pre ++ ts :: suffix) ⟨ts, te⟩ =
      .error (.unclosed pre.length) := by
  unfold keys.ParseWithOptions
  obtain ⟨t2, a2, he⟩ := parseAux_scan ts te hpre (ts :: suffix) 0 [] []
  rw [he, Nat.zero_add, parseAux_unclosed_head ts te suffix hsuf hnd]

/-- C8 witness: "hello<Tab" is a ParseError at offset 5; with a complete
valid tag before the unclosed one, "a<Tab>b<x" is a ParseError at offset 7;
with a doubled-delimiter escape before it, "a<<b<x" is a ParseError at
offset 4 — all with the default delimiters. -/
theorem c8_witness :
    keys.Parse (strBytes ("hello<Tab")) = .error (.unclosed 5) ∧
    keys.Parse (strBytes ("a<Tab>b<x")) = .error (.unclosed 7) ∧
    keys.Parse (strBytes ("a<<b<x")) = .error (.unclosed 4) := by
  refine ⟨?_, ?_, ?_⟩
  · have h := c8_unclosed_tag 60 62 (strBytes ("hello")) (strBytes ("Tab"))
      (scanOk_of_not_mem 60 62 (strBytes ("hello")) (by decide))
      (by decide) (by decide)
    have e1 : strBytes ("hello") ++ 60 :: strBytes ("Tab") = strBytes ("hello<Tab") := by
      decide
    have e2 : (strBytes ("hello")).length = 5 := by decide
    rw [e1, e2] at h
    exact h
  · have hscan : ScanOk 60 62 [97, 60, 84, 97, 98, 62, 98] :=
      ScanOk.text (by decide)
        (@ScanOk.tag 60 62 [84, 97, 98] [98] keys.Tab (by decide) (by decide)
          (by decide) (ScanOk.text (by decide) ScanOk.nil))
    have h := c8_unclosed_tag 60 62 [97, 60, 84, 97, 98, 62, 98] [120] hscan
      (by decide) (by decide)
    have e1 : ([97, 60, 84, 97, 98, 62, 98] : List Nat) ++ 60 :: [120] =
        strBytes ("a<Tab>b<x") := by decide
    have e2 : ([97, 60, 84, 97, 98, 62, 98] : List Nat).length = 7 := by decide
    rw [e1, e2] at h
    exact h
  · have hscan : ScanOk 60 62 [97, 60, 60, 98] :=
      ScanOk.text (by decide)
        (ScanOk.escape (ScanOk.text (by decide) ScanOk.nil))
    have h := c8_unclosed_tag 60 62 [97, 60, 60, 98] [120] hscan
      (by decide) (by decide)
    have e1 : ([97, 60, 60, 98] : List Nat) ++ 60 :: [120] = strBytes ("a<<b<x") := by
      decide
    have e2 : ([97, 60, 60, 98] : List Nat).length = 4 := by decide
    rw [e1, e2] at h
    exact h

/-! ## C6 -/

lemma compile_literal_run (s : List Nat) (opts : keys.ParseOptions)
    (hne : s ≠ []) (hts : opts.tagStart ∉ s) :
    keys.ParseWithOptions s opts = .ok [keys.Text s] := by
  unfold keys.ParseWithOptions
  rw [show s = s ++ [] by simp,
    parseAux_text_scan opts.tagStart opts.tagEnd s (by simpa using hts) [] 0 [] []]
  rw [keys.parseAux]
  simp [hne, keys.Text]

/-- C6 counterexample: the delimiter-free input "__WAITSTABLE__" compiles to
a single token produced from a literal text run, equal to the run's raw
bytes — yet the interpreter does not write it to the pty: it invokes the
Stability Detector, because the token collides with the WaitStable
sentinel. -/
theorem c6_counterexample :
    keys.ParseWithOptions (strBytes ("__WAITSTABLE__")) keys.DefaultParseOptions =
      .ok [keys.Text (strBytes ("__WAITSTABLE__"))] ∧
    KeyPressStringWithOptions (strBytes ("__WAITSTABLE__")) keys.DefaultParseOptions =
      .ok [KeyAction.waitStable] ∧
    KeyAction.waitStable ≠ KeyAction.write (keys.Text (strBytes ("__WAITSTABLE__"))) := by
  refine ⟨?_, ?_, by decide⟩
  · exact compile_literal_run _ _ (by decide) (by decide)
  · rw [KeyPressStringWithOptions,
      compile_literal_run _ _ (by decide) (by decide)]
    simp [interpretKey, keys.Text, keys.wsSentinel, Except.map]

/-- C6 (amended): a nonempty delimiter-free literal run compiles to exactly
one token holding its raw bytes, and the interpreter writes a token's bytes
to the pty precisely when the bytes neither equal the WaitStable sentinel
"__WAITSTABLE__" nor start with the WaitFor sentinel "__WAITFOR__"; a
sentinel-shaped token — whether produced from a WaitStable/WaitFor tag or
from a colliding literal run — invokes the Stability Detector instead. -/
theorem c6_literal_run_dispatch (s : List Nat) (opts : keys.ParseOptions)
    (hne : s ≠ []) (hts : opts.tagStart ∉ s) :
    keys.ParseWithOptions s opts = .ok [keys.Text s] ∧
    (interpretKey (keys.Text s) = .write s ↔
      ¬ (s = keys.wsSentinel ∨ leadsWith keys.wfSentinel s = true)) := by
  refine ⟨compile_literal_run s opts hne hts, ?_⟩
  unfold interpretKey keys.Text
  by_cases h1 : s = keys.wsSentinel
  · simp [h1]
  · by_cases h2 : leadsWith keys.wfSentinel s = true
    · simp [h1, h2]
    · simp [h1, h2]

/-- C6 witness: the literal run "ab" compiles to its raw bytes and is
written to the pty. -/
theorem c6_witness :
    keys.ParseWithOptions (strBytes ("ab")) keys.DefaultParseOptions =
      .ok [keys.Text (strBytes ("ab"))] ∧
    interpretKey (keys.Text (strBytes ("ab"))) = .write (strBytes ("ab")) := by
  have h := c6_literal_run_dispatch (strBytes ("ab")) keys.DefaultParseOptions
    (by decide) (by decide)
  exact ⟨h.1, h.2.mpr (by decide)⟩

/-! ## C5 -/

lemma asciiUpper_of_lower_eq {a b : Nat} (h : asciiLower a = asciiLower b) :
    asciiUpper a = asciiUpper b := by
  unfold asciiLower at h
  unfold asciiUpper
  split_ifs at h ⊢ <;> omega

lemma latin1_of_lower_eq {a b : Nat} (h : asciiLower a = asciiLower b) :
    latin1RuneLower a = latin1RuneLower b := by
  unfold asciiLower at h
  unfold latin1RuneLower
  split_ifs at h ⊢ <;> omega

lemma eq_of_lower_eq_not_lower_letter {a b : Nat} (h : asciiLower a = asciiLower b)
    (hn : ¬ (97 ≤ asciiLower a ∧ asciiLower a ≤ 122)) : a = b := by
  unfold asciiLower at h hn
  split_ifs at h hn <;> omega

lemma upperStr_of_lowerStr_eq : ∀ (n1 n2 : List Nat),
    lowerStr n1 = lowerStr n2 → upperStr n1 = upperStr n2 := by
  intro n1
  induction n1 with
  | nil =>
    intro n2 h
    cases n2 with
    | nil => rfl
    | cons b bs => simp [lowerStr] at h
  | cons a as ih =>
    intro n2 h
    cases n2 with
    | nil => simp [lowerStr] at h
    | cons b bs =>
      simp only [lowerStr, List.map_cons, List.cons.injEq] at h
      simp only [upperStr, List.map_cons, List.cons.injEq]
      refine ⟨asciiUpper_of_lower_eq h.1, ?_⟩
      have := ih bs (by simpa [lowerStr] using h.2)
      simpa [upperStr] using this

lemma lowerStr_getD_zero (l : List Nat) (i : Nat) :
    (lowerStr l).getD i 0 = asciiLower (l.getD i 0) := by
  induction l generalizing i with
  | nil => simp [lowerStr, List.getD, asciiLower]
  | cons a as ih =>
    cases i with
    | zero => simp [lowerStr, List.getD]
    | succ j =>
      simp only [lowerStr, List.map_cons, List.getD_cons_succ]
      exact ih j

lemma eq_of_lower_eq_allDigits : ∀ (s1 s2 : List Nat),
    lowerStr s1 = lowerStr s2 → allDigits s1 = true → s1 = s2 := by
  intro s1
  induction s1 with
  | nil =>
    intro s2 h _
    cases s2 with
    | nil => rfl
    | cons b bs => simp [lowerStr] at h
  | cons a as ih =>
    intro s2 h hd
    cases s2 with
    | nil => simp [lowerStr] at h
    | cons b bs =>
      simp only [lowerStr, List.map_cons, List.cons.injEq] at h
      simp only [allDigits, List.all_cons, Bool.and_eq_true] at hd
      have hdig : 48 ≤ a ∧ a ≤ 57 := by
        simpa [isDigitByte, decide_eq_true_eq] using hd.1
      have ha : a = b := by
        refine eq_of_lower_eq_not_lower_letter h.1 ?_
        unfold asciiLower
        split_ifs <;> omega
      have htail : as = bs := by
        refine ih bs (by simpa [lowerStr] using h.2) ?_
        simpa [allDigits] using hd.2
      rw [ha, htail]

lemma atoi_inputs_eq (s1 s2 : List Nat) (n : Int)
    (hl : lowerStr s1 = lowerStr s2) (ha : atoi s1 = some n) : s1 = s2 := by
  cases s1 with
  | nil => simp [atoi] at ha
  | cons a as =>
    cases s2 with
    | nil => simp [lowerStr] at hl
    | cons b bs =>
      simp only [lowerStr, List.map_cons, List.cons.injEq] at hl
      have hltail : lowerStr as = lowerStr bs := by simpa [lowerStr] using hl.2
      by_cases h43 : a = 43
      · subst h43
        rw [atoi, if_pos rfl] at ha
        have hcond : as ≠ [] ∧ allDigits as = true := by
          by_contra hc
          rw [if_neg ?_] at ha
          · cases ha
          · intro hand
            exact hc ⟨hand.1, hand.2⟩
        have hb : (43 : Nat) = b := by
          refine eq_of_lower_eq_not_lower_letter hl.1 ?_
          decide
        have htail := eq_of_lower_eq_allDigits as bs hltail hcond.2
        rw [← hb, htail]
      · by_cases h45 : a = 45
        · subst h45
          rw [atoi, if_neg (by omega), if_pos rfl] at ha
          have hcond : as ≠ [] ∧ allDigits as = true := by
            by_contra hc
            rw [if_neg ?_] at ha
            · cases ha
            · intro hand
              exact hc ⟨hand.1, hand.2⟩
          have hb : (45 : Nat) = b := by
            refine eq_of_lower_eq_not_lower_letter hl.1 ?_
            decide
          have htail := eq_of_lower_eq_allDigits as bs hltail hcond.2
          rw [← hb, htail]
        · rw [atoi, if_neg h43, if_neg h45] at ha
          have hall : allDigits (a :: as) = true := by
            by_contra hc
            rw [if_neg hc] at ha
            cases ha
          exact eq_of_lower_eq_allDigits (a :: as) (b :: bs)
            (by simp only [lowerStr, List.map_cons, List.cons.injEq]; exact ⟨hl.1, hl.2⟩) hall

set_option maxHeartbeats 1000000 in
/-- C5 (amended): tag compilation is invariant under letter-casing changes
(equal ASCII lowering) for every tag family except Alt tags, whose letter
byte is preserved case-sensitively in the token, and WaitFor tags, whose
trailing text is case-preserved: whenever two names have the same lowering,
the first is neither an Alt tag nor a WaitFor tag, and the first compiles
successfully, the second compiles to the same token. -/
theorem c5_casefold_token_stability (n1 n2 tok : List Nat)
    (hlow : lowerStr n1 = lowerStr n2)
    (halt : ¬ (leadsWith (strBytes ("a-")) (lowerStr n1) = true ∧ n1.length = 3))
    (hwf : ¬ leadsWith (strBytes ("waitfor ")) (lowerStr n1) = true)
    (hok : keys.parseSpecialKey n1 = .ok tok) :
    keys.parseSpecialKey n2 = .ok tok := by
  have hlen : n1.length = n2.length := by
    have h := congrArg List.length hlow
    simpa [lowerStr] using h
  have hup : upperStr n1 = upperStr n2 := upperStr_of_lowerStr_eq n1 n2 hlow
  have hpoint2 : asciiLower (n1.getD 2 0) = asciiLower (n2.getD 2 0) := by
    rw [← lowerStr_getD_zero, ← lowerStr_getD_zero, hlow]
  have hch : latin1RuneLower (n2.getD 2 0) = latin1RuneLower (n1.getD 2 0) :=
    (latin1_of_lower_eq hpoint2).symm
  have hdlow : lowerStr (n1.drop 1) = lowerStr (n2.drop 1) := by
    unfold lowerStr
    rw [List.map_drop, List.map_drop]
    unfold lowerStr at hlow
    rw [hlow]
  simp only [keys.parseSpecialKey] at hok ⊢
  rw [← hlow, ← hup, ← hlen, hch]
  by_cases h1 : lowerStr n1 = strBytes ("tab")
  · rw [if_pos h1] at hok
    rw [if_pos h1]
    exact hok
  rw [if_neg h1] at hok
  rw [if_neg h1]
  by_cases h2 : lowerStr n1 = strBytes ("enter") ∨ lowerStr n1 = strBytes ("cr")
  · rw [if_pos h2] at hok
    rw [if_pos h2]
    exact hok
  rw [if_neg h2] at hok
  rw [if_neg h2]
  by_cases h3 : lowerStr n1 = strBytes ("bs") ∨ lowerStr n1 = strBytes ("backspace")
  · rw [if_pos h3] at hok
    rw [if_pos h3]
    exact hok
  rw [if_neg h3] at hok
  rw [if_neg h3]
  by_cases h4 : lowerStr n1 = strBytes ("del") ∨ lowerStr n1 = strBytes ("delete")
  · rw [if_pos h4] at hok
    rw [if_pos h4]
    exact hok
  rw [if_neg h4] at hok
  rw [if_neg h4]
  by_cases h5 : lowerStr n1 = strBytes ("esc") ∨ lowerStr n1 = strBytes ("escape")
  · rw [if_pos h5] at hok
    rw [if_pos h5]
    exact hok
  rw [if_neg h5] at hok
  rw [if_neg h5]
  by_cases h6 : lowerStr n1 = strBytes ("space")
  · rw [if_pos h6] at hok
    rw [if_pos h6]
    exact hok
  rw [if_neg h6] at hok
  rw [if_neg h6]
  by_cases h7 : lowerStr n1 = strBytes ("up")
  · rw [if_pos h7] at hok
    rw [if_pos h7]
    exact hok
  rw [if_neg h7] at hok
  rw [if_neg h7]
  by_cases h8 : lowerStr n1 = strBytes ("down")
  · rw [if_pos h8] at hok
    rw [if_pos h8]
    exact hok
  rw [if_neg h8] at hok
  rw [if_neg h8]
  by_cases h9 : lowerStr n1 = strBytes ("left")
  · rw [if_pos h9] at hok
    rw [if_pos h9]
    exact hok
  rw [if_neg h9] at hok
  rw [if_neg h9]
  by_cases h10 : lowerStr n1 = strBytes ("right")
  · rw [if_pos h10] at hok
    rw [if_pos h10]
    exact hok
  rw [if_neg h10] at hok
  rw [if_neg h10]
  by_cases h11 : lowerStr n1 = strBytes ("home")
  · rw [if_pos h11] at hok
    rw [if_pos h11]
    exact hok
  rw [if_neg h11] at hok
  rw [if_neg h11]
  by_cases h12 : lowerStr n1 = strBytes ("end")
  · rw [if_pos h12] at hok
    rw [if_pos h12]
    exact hok
  rw [if_neg h12] at hok
  rw [if_neg h12]
  by_cases h13 : lowerStr n1 = strBytes ("pageup")
  · rw [if_pos h13] at hok
    rw [if_pos h13]
    exact hok
  rw [if_neg h13] at hok
  rw [if_neg h13]
  by_cases h14 : lowerStr n1 = strBytes ("pagedown")
  · rw [if_pos h14] at hok
    rw [if_pos h14]
    exact hok
  rw [if_neg h14] at hok
  rw [if_neg h14]
  by_cases h15 : lowerStr n1 = strBytes ("waitstable")
  · rw [if_pos h15] at hok
    rw [if_pos h15]
    exact hok
  rw [if_neg h15] at hok
  rw [if_neg h15]
  rw [if_neg hwf] at hok
  rw [if_neg hwf]
  by_cases h17 : leadsWith (strBytes ("c-")) (lowerStr n1) = true ∧ n1.length = 3
  · rw [if_pos h17] at hok
    rw [if_pos h17]
    by_cases h18 : 97 ≤ latin1RuneLower (n1.getD 2 0) ∧ latin1RuneLower (n1.getD 2 0) ≤ 122
    · rw [if_pos h18] at hok
      rw [if_pos h18]
      exact hok
    · rw [if_neg h18] at hok
      cases hok
  rw [if_neg h17] at hok
  rw [if_neg h17]
  rw [if_neg halt] at hok
  rw [if_neg halt]
  by_cases h20 : leadsWith (strBytes ("F")) (upperStr n1) = true
  · rw [if_pos h20] at hok
    rw [if_pos h20]
    cases ha : atoi (List.drop 1 n1) with
    | none =>
      simp only [ha] at hok
      simp at hok
    | some n =>
      have hdrop : List.drop 1 n1 = List.drop 1 n2 :=
        atoi_inputs_eq _ _ n hdlow ha
      rw [← hdrop]
      simp only [ha] at hok ⊢
      cases hF : keys.F n with
      | none =>
        simp only [hF] at hok
        simp at hok
      | some k =>
        simp only [hF] at hok ⊢
        exact hok
  rw [if_neg h20] at hok
  cases hok

/-- C5 counterexample: the supported tag A-a and its casing variant A-A
both compile, but to different tokens — the Alt letter's case is preserved
in the escape-prefixed byte pair. -/
theorem c5_counterexample :
    keys.parseSpecialKey (strBytes ("A-a")) = .ok (keys.Alt 97) ∧
    keys.parseSpecialKey (strBytes ("A-A")) = .ok (keys.Alt 65) ∧
    keys.Alt 97 ≠ keys.Alt 65 :=
  ⟨by decide, by decide, by decide⟩

/-- C5 witness: the casing variant TAB of the supported tag name tab
compiles to the same token, via the general casefold theorem. -/
theorem c5_witness :
    keys.parseSpecialKey (strBytes ("tab")) = .ok keys.Tab :=
  c5_casefold_token_stability (strBytes ("TAB")) (strBytes ("tab")) keys.Tab
    (by decide) (by decide) (by decide) (by decide)
